import Mathlib

/-!
Verification development for the weekly-reminder scheduler bot (`bot.py`).

The embedding models civil (wall-clock) time: an aware `datetime` in the
configured zone is represented by its proleptic-Gregorian ordinal day
(`datetime.date.toordinal`, day 1 = 0001-01-01, a Monday) together with the
microseconds elapsed since local midnight.  `timedelta(days = n)` arithmetic on
zone-aware datetimes in Python is wall-clock arithmetic, which this model
captures exactly; comparisons between datetimes of the same zone are modelled
lexicographically on (day, time-of-day).  The timezone-offset suffix of
`isoformat` is not modelled (strings are rendered as for naive civil time);
every property proved here only uses `isoformat` as a fixed rendering function.
-/

namespace TrashBot

/-- Microseconds in one civil day. -/
def usecPerDay : Nat := 86400000000

/-- A civil (wall-clock) datetime: ordinal day (`date.toordinal`) and
microseconds since midnight. -/
structure CivilDT where
  ord : Int
  tod : Nat
deriving DecidableEq, Repr

/-- Python `datetime.weekday()`: Monday = 0 … Sunday = 6.  Ordinal 1 (0001-01-01) is a
Monday in the proleptic Gregorian calendar, so the weekday is `(ord - 1) mod 7`. -/
def weekday (d : CivilDT) : Int := (d.ord - 1) % 7

/-- Strict comparison of civil datetimes (Python `<` on datetimes of one zone),
lexicographic on (day, time-of-day). -/
def dtLt (a b : CivilDT) : Prop := a.ord < b.ord ∨ (a.ord = b.ord ∧ a.tod < b.tod)

/-- Non-strict comparison of civil datetimes (Python `<=`). -/
def dtLe (a b : CivilDT) : Prop := a.ord < b.ord ∨ (a.ord = b.ord ∧ a.tod ≤ b.tod)

instance (a b : CivilDT) : Decidable (dtLt a b) := by unfold dtLt; infer_instance

instance (a b : CivilDT) : Decidable (dtLe a b) := by unfold dtLe; infer_instance

/-- Model of `d + datetime.timedelta(days = n)`: wall-clock day shift. -/
def addDays (d : CivilDT) (n : Int) : CivilDT := ⟨d.ord + n, d.tod⟩

/-- Model of `d.replace(hour = h, minute = m, second = 0, microsecond = 0)`. -/
def replaceTime (d : CivilDT) (h m : Nat) : CivilDT :=
  ⟨d.ord, ((h * 60 + m) * 60) * 1000000⟩

/-- Model of `(a - b).total_seconds()` scaled to microseconds (`a - b` as a timedelta). -/
def subUsec (a b : CivilDT) : Int :=
  (a.ord - b.ord) * (usecPerDay : Int) + (a.tod : Int) - (b.tod : Int)

/-- The local variable `candidate` of `scheduled_run_for_week`:
`(now - timedelta(days = days_back)).replace(hour = H, minute = M, second = 0,
microsecond = 0)` with `days_back = (now.weekday() - TARGET_WEEKDAY) % 7`. -/
def run_candidate (W H M : Nat) (now : CivilDT) : CivilDT :=
  replaceTime (addDays now (-((weekday now - (W : Int)) % 7))) H M

/-- Model of `scheduled_run_for_week(now_local)` (bot.py lines 132-146), parametrised by
the configuration `TARGET_WEEKDAY = W`, `TARGET_HOUR = H`, `TARGET_MINUTE = M`:
most recent scheduled time `<= now_local`; the candidate is pulled back a week
when it lands after `now_local`. -/
def scheduled_run_for_week (W H M : Nat) (now : CivilDT) : CivilDT :=
  if dtLt now (run_candidate W H M now) then addDays (run_candidate W H M now) (-7)
  else run_candidate W H M now

/-- Model of `next_run_after(now_local)` (bot.py lines 149-157): `scheduled_run_for_week`
plus 7 days, advanced by 7 more if still `<= now_local`. -/
def next_run_after (W H M : Nat) (now : CivilDT) : CivilDT :=
  if dtLe (addDays (scheduled_run_for_week W H M now) 7) now
  then addDays (addDays (scheduled_run_for_week W H M now) 7) 7
  else addDays (scheduled_run_for_week W H M now) 7

/-- The `datetime.hour` field of the model. -/
def hourOf (d : CivilDT) : Nat := d.tod / 3600000000

/-- The `datetime.minute` field of the model. -/
def minuteOf (d : CivilDT) : Nat := d.tod / 60000000 % 60

/-- The `datetime.second` field of the model. -/
def secondOf (d : CivilDT) : Nat := d.tod / 1000000 % 60

/-- The `datetime.microsecond` field of the model. -/
def microsecondOf (d : CivilDT) : Nat := d.tod % 1000000

theorem scheduled_run_le (W H M : Nat) (now : CivilDT) :
    dtLe (scheduled_run_for_week W H M now) now := by
  unfold scheduled_run_for_week
  split_ifs with h
  · simp only [run_candidate, replaceTime, addDays, dtLe, dtLt, weekday] at *
    omega
  · simp only [run_candidate, replaceTime, addDays, dtLe, dtLt, weekday] at *
    omega

theorem now_lt_scheduled_run_add7 (W H M : Nat) (now : CivilDT) :
    dtLt now (addDays (scheduled_run_for_week W H M now) 7) := by
  unfold scheduled_run_for_week
  split_ifs with h
  · simp only [run_candidate, replaceTime, addDays, dtLe, dtLt, weekday] at *
    omega
  · simp only [run_candidate, replaceTime, addDays, dtLe, dtLt, weekday] at *
    omega

theorem next_run_after_eq (W H M : Nat) (now : CivilDT) :
    next_run_after W H M now = addDays (scheduled_run_for_week W H M now) 7 := by
  have h := now_lt_scheduled_run_add7 W H M now
  unfold next_run_after
  rw [if_neg]
  intro hle
  revert h hle
  simp only [dtLe, dtLt]
  omega

/-- Claim C2: the time-window calculator satisfies, for every civil input
`now`: `scheduled_run_for_week now <= now`, `next_run_after now > now`, and
their difference is exactly 7 civil days. -/
theorem claim_C2_window_calculator (W H M : Nat) (now : CivilDT) :
    dtLe (scheduled_run_for_week W H M now) now ∧
    dtLt now (next_run_after W H M now) ∧
    subUsec (next_run_after W H M now) (scheduled_run_for_week W H M now)
      = 7 * (usecPerDay : Int) := by
  refine ⟨scheduled_run_le W H M now, ?_, ?_⟩
  · rw [next_run_after_eq]
    exact now_lt_scheduled_run_add7 W H M now
  · rw [next_run_after_eq]
    simp only [subUsec, addDays]
    ring

/-- Claim C10: `scheduled_run_for_week` always returns an instant whose weekday
is `TARGET_WEEKDAY`, whose hour and minute are `TARGET_HOUR` and
`TARGET_MINUTE`, and whose second and microsecond are zero. -/
theorem claim_C10_output_matches_spec (W H M : Nat) (hW : W ≤ 6) (hH : H ≤ 23)
    (hM : M ≤ 59) (now : CivilDT) :
    weekday (scheduled_run_for_week W H M now) = (W : Int) ∧
    hourOf (scheduled_run_for_week W H M now) = H ∧
    minuteOf (scheduled_run_for_week W H M now) = M ∧
    secondOf (scheduled_run_for_week W H M now) = 0 ∧
    microsecondOf (scheduled_run_for_week W H M now) = 0 := by
  unfold scheduled_run_for_week
  split_ifs with h
  · simp only [run_candidate, replaceTime, addDays, weekday, hourOf, minuteOf,
      secondOf, microsecondOf] at *
    refine ⟨by omega, by omega, by omega, by omega, by omega⟩
  · simp only [run_candidate, replaceTime, addDays, weekday, hourOf, minuteOf,
      secondOf, microsecondOf] at *
    refine ⟨by omega, by omega, by omega, by omega, by omega⟩

/-- Witness for C10 at the concrete configuration Wednesday 00:00 and
`now` = ordinal 738888 (2024-01-03, a Wednesday), midnight. -/
theorem claim_C10_witness :
    (2 : Nat) ≤ 6 ∧
    weekday (scheduled_run_for_week 2 0 0 ⟨738888, 0⟩) = (2 : Int) := by
  exact ⟨by decide, (claim_C10_output_matches_spec 2 0 0 (by decide) (by decide)
    (by decide) ⟨738888, 0⟩).1⟩

/-- One decimal digit as a character. -/
def digitChar (n : Nat) : Char := Char.ofNat (48 + n)

/-- Zero-padded two-digit rendering (`%02d` for values below 100). -/
def pad2 (n : Nat) : String := String.mk [digitChar (n / 10 % 10), digitChar (n % 10)]

/-- Zero-padded four-digit rendering (`%04d` for values below 10000). -/
def pad4 (n : Nat) : String :=
  String.mk [digitChar (n / 1000 % 10), digitChar (n / 100 % 10),
    digitChar (n / 10 % 10), digitChar (n % 10)]

/-- Zero-padded six-digit rendering (`%06d` for values below 1000000). -/
def pad6 (n : Nat) : String :=
  String.mk [digitChar (n / 100000 % 10), digitChar (n / 10000 % 10),
    digitChar (n / 1000 % 10), digitChar (n / 100 % 10),
    digitChar (n / 10 % 10), digitChar (n % 10)]

/-- Proleptic-Gregorian conversion of a day count (days since 1970-01-01) to
(year, month, day), the inverse of `datetime.date.toordinal` shifted by the
Unix epoch; floor division throughout, as in Python. -/
def civilFromDays (z0 : Int) : Int × Int × Int :=
  let z := z0 + 719468
  let era := z / 146097
  let doe := z - era * 146097
  let yoe := (doe - doe / 1460 + doe / 36524 - doe / 146096) / 365
  let y := yoe + era * 400
  let doy := doe - (365 * yoe + yoe / 4 - yoe / 100)
  let mp := (5 * doy + 2) / 153
  let d := doy - (153 * mp + 2) / 5 + 1
  let m := if mp < 10 then mp + 3 else mp - 9
  (if m ≤ 2 then y + 1 else y, m, d)

/-- Model of `run_at.isoformat()` for the civil model: `YYYY-MM-DDTHH:MM:SS`, with a
`.ffffff` suffix exactly when the microsecond field is non-zero (the
timezone-offset suffix of aware datetimes is not modelled). -/
def isoformat (dt : CivilDT) : String :=
  pad4 (civilFromDays (dt.ord - 719163)).1.toNat ++ "-" ++
  pad2 (civilFromDays (dt.ord - 719163)).2.1.toNat ++ "-" ++
  pad2 (civilFromDays (dt.ord - 719163)).2.2.toNat ++ "T" ++
  pad2 (hourOf dt) ++ ":" ++ pad2 (minuteOf dt) ++ ":" ++ pad2 (secondOf dt) ++
  (if microsecondOf dt = 0 then "" else "." ++ pad6 (microsecondOf dt))

theorem pad2_length (n : Nat) : (pad2 n).length = 2 := rfl

theorem pad4_length (n : Nat) : (pad4 n).length = 4 := rfl

theorem isoformat_ne_empty (dt : CivilDT) : isoformat dt ≠ "" := by
  intro h
  have h2 := congrArg String.length h
  unfold isoformat at h2
  simp only [String.length_append, pad2_length, pad4_length] at h2
  have : (("" : String).length) = 0 := rfl
  omega

/-- A JSON value as found in the persisted state mapping: a string, or any
non-string payload (whose further shape the dedup logic never inspects). -/
inductive JValue
  | jstr (s : String)
  | jother
deriving DecidableEq, Repr

/-- The in-memory `state` dict: an association list keyed by strings, where
assignment updates the first matching key or appends a fresh binding. -/
abbrev StateMap := List (String × JValue)

/-- Model of `state.get(key)`. -/
def dictGet (st : StateMap) (key : String) : Option JValue :=
  match st with
  | [] => none
  | (k, v) :: rest => if k = key then some v else dictGet rest key

/-- Model of `state[key] = value`. -/
def dictSet (st : StateMap) (key : String) (value : JValue) : StateMap :=
  match st with
  | [] => [(key, value)]
  | (k, v) :: rest =>
    if k = key then (k, value) :: rest else (k, v) :: dictSet rest key value

theorem dictGet_dictSet_self (st : StateMap) (key : String) (v : JValue) :
    dictGet (dictSet st key v) key = some v := by
  induction st with
  | nil => simp [dictGet, dictSet]
  | cons hd tl ih =>
    obtain ⟨k, w⟩ := hd
    by_cases hk : k = key
    · simp [dictGet, dictSet, hk]
    · simp [dictGet, dictSet, hk, ih]

theorem dictGet_dictSet_ne (st : StateMap) (key k2 : String) (v : JValue)
    (h : k2 ≠ key) : dictGet (dictSet st key v) k2 = dictGet st k2 := by
  have hne : ¬ key = k2 := fun hh => h (Eq.symm hh)
  induction st with
  | nil => simp [dictGet, dictSet, hne]
  | cons hd tl ih =>
    obtain ⟨k, w⟩ := hd
    by_cases hk : k = key
    · subst hk
      simp [dictGet, dictSet, hne]
    · simp [dictGet, dictSet, hk, ih]

/-- Model of `_make_target_key(channel_id, guild_id)` (bot.py lines 196-201). -/
def _make_target_key (channel_id guild_id : Option Int) : String :=
  match channel_id with
  | some c => "channel:" ++ toString c
  | none =>
    match guild_id with
    | some g => "guild:" ++ toString g
    | none => "unknown"

/-- Model of `_already_sent_for_run(state, target_key, run_at)` (bot.py lines 204-208):
false when the stored value is missing, not a string, or empty; otherwise exact
string comparison against `run_at.isoformat()`. -/
def _already_sent_for_run (state : StateMap) (target_key : String)
    (run_at : CivilDT) : Bool :=
  match dictGet state target_key with
  | some (JValue.jstr last) =>
    if last = "" then false else decide (last = isoformat run_at)
  | some JValue.jother => false
  | none => false

theorem already_sent_for_run_iff (state : StateMap) (key : String)
    (run_at : CivilDT) :
    _already_sent_for_run state key run_at = true ↔
    dictGet state key = some (JValue.jstr (isoformat run_at)) := by
  unfold _already_sent_for_run
  cases hget : dictGet state key with
  | none => simp
  | some v =>
    cases v with
    | jother => simp
    | jstr last =>
      by_cases hempty : last = ""
      · subst hempty
        simp only [if_pos rfl]
        constructor
        · intro hfalse
          exact absurd hfalse (by simp)
        · intro heq
          exact absurd (Option.some.inj heq) (by
            intro hj
            exact isoformat_ne_empty run_at (JValue.jstr.inj hj).symm)
      · simp only [if_neg hempty, decide_eq_true_eq]
        constructor
        · intro heq
          rw [heq]
        · intro heq
          exact (JValue.jstr.inj (Option.some.inj heq))

/-- Claim C4: `_already_sent_for_run` is true exactly when the stored value for
the key is the string `run_at.isoformat()`; a missing, non-string or unequal
value yields false. -/
theorem claim_C4_already_sent_iff (state : StateMap) (key : String)
    (run_at : CivilDT) :
    _already_sent_for_run state key run_at = true ↔
    dictGet state key = some (JValue.jstr (isoformat run_at)) :=
  already_sent_for_run_iff state key run_at

/-- Possible outcomes of opening and parsing the persisted state file. -/
inductive LoadOutcome
  | fileMissing
  | readOrParseFailure (msg : String)
  | parsedNonDict
  | parsedDict (entries : StateMap)

/-- Model of `_load_state()` (bot.py lines 172-181): total over every file outcome — a
missing file returns `{}`, any read or parse exception is caught, logged and
returns `{}`, a payload that is not a dict returns `{}`, and a parsed dict is
returned as is.  Totality of this function is the model of "never raises". -/
def _load_state : LoadOutcome → StateMap
  | LoadOutcome.fileMissing => []
  | LoadOutcome.readOrParseFailure _ => []
  | LoadOutcome.parsedNonDict => []
  | LoadOutcome.parsedDict d => d

/-- Claim C7: `_load_state` never fails the process: a missing file or any
read/parse failure yields the empty map, and every outcome yields either the
empty map or the successfully parsed dict. -/
theorem claim_C7_load_never_fails :
    _load_state LoadOutcome.fileMissing = [] ∧
    (∀ msg, _load_state (LoadOutcome.readOrParseFailure msg) = []) ∧
    (∀ o, _load_state o = [] ∨
      ∃ d, o = LoadOutcome.parsedDict d ∧ _load_state o = d) := by
  refine ⟨rfl, fun _ => rfl, fun o => ?_⟩
  cases o with
  | fileMissing => exact Or.inl rfl
  | readOrParseFailure msg => exact Or.inl rfl
  | parsedNonDict => exact Or.inl rfl
  | parsedDict d => exact Or.inr ⟨d, rfl, rfl⟩

/-- Contents of the real state file and of the temporary sibling file, at the
granularity of the parsed map (file bytes are modelled by the map they encode;
`none` is an absent file). -/
structure FileSys where
  real : Option StateMap
  tmp : Option StateMap
deriving DecidableEq, Repr

/-- The successive file-system effects of `_save_state` (bot.py lines 184-193):
opening the temp file for writing truncates it, `json.dump` plus the trailing
newline writes the serialized map (flushed when the `with` block closes the
file), and `tmp.replace(STATE_PATH)` atomically renames the temp file over the
real path. -/
inductive SaveStep
  | openTmp
  | writeBody
  | renameTmp
deriving DecidableEq, Repr

def saveScript : List SaveStep := [SaveStep.openTmp, SaveStep.writeBody, SaveStep.renameTmp]

def applySaveStep (st : StateMap) (fs : FileSys) : SaveStep → FileSys
  | SaveStep.openTmp => { fs with tmp := some [] }
  | SaveStep.writeBody => { fs with tmp := some st }
  | SaveStep.renameTmp => { real := fs.tmp, tmp := none }

def runSaveSteps (st : StateMap) (fs : FileSys) : List SaveStep → FileSys
  | [] => fs
  | s :: rest => runSaveSteps st (applySaveStep st fs s) rest

/-- Model of `_save_state(state)` (bot.py lines 184-193).  `failAfter = none` runs all
three steps; `failAfter = some n` models an exception after `n` effects, before
the rename completes — the `except Exception` arm catches it and only logs.
The boolean records whether an exception escaped the function: it never does. -/
def _save_state (failAfter : Option Nat) (st : StateMap) (fs : FileSys) :
    FileSys × Bool :=
  match failAfter with
  | none => (runSaveSteps st fs saveScript, false)
  | some n => (runSaveSteps st fs (saveScript.take (min n 2)), false)

theorem runSaveSteps_take_real (st : StateMap) (fs : FileSys) (n : Nat)
    (hn : n ≤ 2) : (runSaveSteps st fs (saveScript.take n)).real = fs.real := by
  interval_cases n <;> rfl

/-- Claim C5: `_save_state` writes the map to a temp file and atomically
renames it over the real path: any interruption among the effects before the
rename leaves the previously committed real file unchanged, a save that fails
with an exception never lets the exception escape and leaves the real file
unchanged, and a completed save replaces the real file with the full map. -/
theorem claim_C5_save_atomic (st : StateMap) (fs : FileSys) (n : Nat)
    (hn : n ≤ 2) :
    (runSaveSteps st fs (saveScript.take n)).real = fs.real ∧
    (∀ failAfter, (_save_state failAfter st fs).2 = false) ∧
    (∀ m, (_save_state (some m) st fs).1.real = fs.real) ∧
    (_save_state none st fs).1.real = some st := by
  refine ⟨runSaveSteps_take_real st fs n hn, ?_, ?_, rfl⟩
  · intro failAfter
    cases failAfter <;> rfl
  · intro m
    exact runSaveSteps_take_real st fs (min m 2) (Nat.min_le_right m 2)

/-- Witness for C5: concrete store `{}` over a file system whose real file
holds one committed entry; interruption right before the rename (2 of 3
effects) leaves it intact. -/
theorem claim_C5_witness :
    (2 : Nat) ≤ 2 ∧
    (runSaveSteps [] ⟨some [("channel:42", JValue.jstr "x")], none⟩
      (saveScript.take 2)).real = some [("channel:42", JValue.jstr "x")] := by
  exact ⟨by decide,
    (claim_C5_save_atomic [] ⟨some [("channel:42", JValue.jstr "x")], none⟩ 2
      (by decide)).1⟩

/-- Model of `hours_since_last` (bot.py line 350): `(now - last).total_seconds() / 3600.0`,
modelled as an exact rational number of hours. -/
def hoursSinceLast (now last : CivilDT) : ℚ := (subUsec now last : ℚ) / 3600000000

/-- The catch-up decision at loop entry (bot.py lines 349-359): when `CATCH_UP`
is set, fire immediately for `scheduled_run_for_week now` if
`CATCH_UP_MAX_HOURS` is unset or `hours_since_last <= CATCH_UP_MAX_HOURS`,
otherwise log the skip.  `some t` means "fire immediately for `t`"; `none`
means no catch-up fire. -/
def loop_entry_catch_up (W H M : Nat) (catchUp : Bool) (maxHours : Option ℚ)
    (now : CivilDT) : Option CivilDT :=
  if catchUp then
    match maxHours with
    | none => some (scheduled_run_for_week W H M now)
    | some mx =>
      if hoursSinceLast now (scheduled_run_for_week W H M now) ≤ mx then
        some (scheduled_run_for_week W H M now)
      else none
  else none

/-- Claim C6: the catch-up fire happens, and happens for
`scheduled_run_for_week now`, exactly when catch-up is enabled and either no
maximum staleness is configured or the hours elapsed since the last scheduled
instant do not exceed it; when the maximum is exceeded the window is skipped. -/
theorem claim_C6_catch_up_policy (W H M : Nat) (catchUp : Bool)
    (maxHours : Option ℚ) (now : CivilDT) :
    (loop_entry_catch_up W H M catchUp maxHours now
        = some (scheduled_run_for_week W H M now) ↔
      catchUp = true ∧ (maxHours = none ∨ ∃ mx, maxHours = some mx ∧
        hoursSinceLast now (scheduled_run_for_week W H M now) ≤ mx)) ∧
    (∀ mx, catchUp = true → maxHours = some mx →
      mx < hoursSinceLast now (scheduled_run_for_week W H M now) →
      loop_entry_catch_up W H M catchUp maxHours now = none) := by
  constructor
  · unfold loop_entry_catch_up
    cases catchUp with
    | false => simp
    | true =>
      cases maxHours with
      | none => simp
      | some mx =>
        by_cases hle : hoursSinceLast now (scheduled_run_for_week W H M now) ≤ mx
        · simp [hle]
        · simp [hle]
  · intro mx hcu hmx hgt
    subst hcu
    subst hmx
    unfold loop_entry_catch_up
    simp [not_le.mpr hgt]

/-- Witness for C6, Scenario C: catch-up enabled, max staleness 2 hours, `now`
(Wednesday 05:00) is 5 hours past the last scheduled instant (Wednesday 00:00)
— no catch-up fire. -/
theorem claim_C6_witness :
    loop_entry_catch_up 2 0 0 true (some 2) ⟨738888, 18000000000⟩ = none := by
  have hs : scheduled_run_for_week 2 0 0 ⟨738888, 18000000000⟩ = ⟨738888, 0⟩ := by
    decide
  refine (claim_C6_catch_up_policy 2 0 0 true (some 2) ⟨738888, 18000000000⟩).2
    2 rfl rfl ?_
  rw [hs]
  norm_num [hoursSinceLast, subUsec, usecPerDay]

/-- Outcome of one real `channel.send` invocation: success, or one of the
exception classes handled per guild (bot.py lines 318-325). -/
inductive SendOutcome
  | ok
  | forbidden
  | httpError
  | otherError
deriving DecidableEq, Repr

/-- One guild as seen by the guild loop: its id, whether `pick_channel` finds a
postable channel, and how `channel.send` would turn out there. -/
structure GuildEnv where
  gid : Int
  channelFound : Bool
  send : SendOutcome
deriving DecidableEq, Repr

/-- Result of `_resolve_fixed_channel()`: the channel, or an exception
(`SystemExit` or a fetch failure) caught by `_run_send_window`'s outer
handlers (bot.py lines 327-332). -/
inductive ResolveResult
  | ok
  | raisesError
deriving DecidableEq, Repr

/-- The collaborator environment of one `_run_send_window` pass: the dry-run
flag, the optional fixed `CHANNEL_ID`, the behaviour of fixed-channel
resolution and of the fixed-channel send, and the enumerated guilds. -/
structure WindowEnv where
  dryRun : Bool
  channelId : Option Int
  resolve : ResolveResult
  fixedSend : SendOutcome
  guilds : List GuildEnv
deriving DecidableEq, Repr

/-- Observable effects of one `_run_send_window` pass: the final in-memory
state, the target keys for which a real delivery (`channel.send`) was invoked,
in order, and the successive snapshots handed to `_save_state`. -/
structure WindowResult where
  state : StateMap
  deliveries : List String
  saves : List StateMap
deriving DecidableEq, Repr

/-- The dedup key of a guild target. -/
def guildKey (g : GuildEnv) : String := _make_target_key none (some g.gid)

/-- The `for guild in client.guilds` loop of `_run_send_window` (bot.py lines
289-325): guilds without a postable channel are skipped, already-sent targets
are skipped, otherwise the delivery is attempted; in dry-run `_send_once`
returns after logging and no state is written; on success outside dry-run the
state entry is written and persisted; a per-guild exception is caught, logged,
and the loop continues with the next guild. -/
def runGuilds (dryRun : Bool) (sched : CivilDT) (guilds : List GuildEnv)
    (st : StateMap) : WindowResult :=
  match guilds with
  | [] => ⟨st, [], []⟩
  | g :: rest =>
    if g.channelFound = false then runGuilds dryRun sched rest st
    else if _already_sent_for_run st (guildKey g) sched then
      runGuilds dryRun sched rest st
    else if dryRun then runGuilds dryRun sched rest st
    else if g.send = SendOutcome.ok then
      ⟨(runGuilds dryRun sched rest
          (dictSet st (guildKey g) (JValue.jstr (isoformat sched)))).state,
        guildKey g :: (runGuilds dryRun sched rest
          (dictSet st (guildKey g) (JValue.jstr (isoformat sched)))).deliveries,
        dictSet st (guildKey g) (JValue.jstr (isoformat sched)) ::
          (runGuilds dryRun sched rest
            (dictSet st (guildKey g) (JValue.jstr (isoformat sched)))).saves⟩
    else
      ⟨(runGuilds dryRun sched rest st).state,
        guildKey g :: (runGuilds dryRun sched rest st).deliveries,
        (runGuilds dryRun sched rest st).saves⟩

/-- Model of `_run_send_window(state, scheduled_at)` (bot.py lines 266-332): the
fixed-channel path when `CHANNEL_ID` is set, otherwise the guild loop.  On the
fixed path an exception from resolution or from the send reaches the outer
handlers, which log (and for `SystemExit` close the client); the pass then ends
with no further effect. -/
def _run_send_window (env : WindowEnv) (st : StateMap) (sched : CivilDT) :
    WindowResult :=
  match env.channelId with
  | some cid =>
    match env.resolve with
    | ResolveResult.raisesError => ⟨st, [], []⟩
    | ResolveResult.ok =>
      if _already_sent_for_run st (_make_target_key (some cid) none) sched then
        ⟨st, [], []⟩
      else if env.dryRun then ⟨st, [], []⟩
      else if env.fixedSend = SendOutcome.ok then
        ⟨dictSet st (_make_target_key (some cid) none)
            (JValue.jstr (isoformat sched)),
          [_make_target_key (some cid) none],
          [dictSet st (_make_target_key (some cid) none)
            (JValue.jstr (isoformat sched))]⟩
      else ⟨st, [_make_target_key (some cid) none], []⟩
  | none => runGuilds env.dryRun sched env.guilds st

/-- The pass confirmed a successful delivery for `key`: on the fixed path the
resolution and the send succeeded and `key` is the fixed key; on the guild path
some enumerated guild with this key had a postable channel and a successful
send. -/
def successFor (env : WindowEnv) (key : String) : Prop :=
  match env.channelId with
  | some cid =>
    env.resolve = ResolveResult.ok ∧ env.fixedSend = SendOutcome.ok ∧
      key = _make_target_key (some cid) none
  | none =>
    ∃ g ∈ env.guilds, g.channelFound = true ∧ g.send = SendOutcome.ok ∧
      key = guildKey g

theorem already_sent_congr (st st2 : StateMap) (key : String) (sched : CivilDT)
    (h : dictGet st2 key = dictGet st key) :
    _already_sent_for_run st2 key sched = _already_sent_for_run st key sched := by
  unfold _already_sent_for_run
  rw [h]

theorem already_ne (st : StateMap) (sched : CivilDT) (k1 k2 : String)
    (h1 : _already_sent_for_run st k1 sched = true)
    (h2 : _already_sent_for_run st k2 sched = false) : k1 ≠ k2 := by
  intro h
  subst h
  rw [h1] at h2
  exact Bool.noConfusion h2

theorem runGuilds_dry (sched : CivilDT) (gs : List GuildEnv) (st : StateMap) :
    runGuilds true sched gs st = ⟨st, [], []⟩ := by
  induction gs generalizing st with
  | nil => rfl
  | cons g rest ih =>
    unfold runGuilds
    by_cases h1 : g.channelFound = false
    · simp [h1, ih]
    · by_cases h2 : _already_sent_for_run st (guildKey g) sched = true
      · simp [h1, h2, ih]
      · simp [h1, h2, ih]

theorem runGuilds_already_sent (d : Bool) (sched : CivilDT) (gs : List GuildEnv)
    (st : StateMap) (key : String)
    (h : _already_sent_for_run st key sched = true) :
    key ∉ (runGuilds d sched gs st).deliveries ∧
    dictGet (runGuilds d sched gs st).state key = dictGet st key := by
  induction gs generalizing st with
  | nil => exact ⟨List.not_mem_nil key, rfl⟩
  | cons g rest ih =>
    unfold runGuilds
    by_cases h1 : g.channelFound = false
    · simp only [if_pos h1]
      exact ih st h
    · simp only [if_neg h1]
      by_cases h2 : _already_sent_for_run st (guildKey g) sched = true
      · simp only [if_pos h2]
        exact ih st h
      · rw [if_neg h2]
        have hne : key ≠ guildKey g :=
          already_ne st sched key (guildKey g) h (Bool.eq_false_iff.mpr h2)
        by_cases hd : d = true
        · rw [if_pos hd]
          exact ih st h
        · rw [if_neg hd]
          by_cases hsend : g.send = SendOutcome.ok
          · rw [if_pos hsend]
            have hset : dictGet
                (dictSet st (guildKey g) (JValue.jstr (isoformat sched))) key
                = dictGet st key :=
              dictGet_dictSet_ne st (guildKey g) key
                (JValue.jstr (isoformat sched)) hne
            have h3 : _already_sent_for_run
                (dictSet st (guildKey g) (JValue.jstr (isoformat sched)))
                key sched = true := by
              rw [already_sent_congr st
                (dictSet st (guildKey g) (JValue.jstr (isoformat sched)))
                key sched hset]
              exact h
            obtain ⟨ihm, ihs⟩ := ih
              (dictSet st (guildKey g) (JValue.jstr (isoformat sched))) h3
            refine ⟨?_, ihs.trans hset⟩
            simp only [List.mem_cons, not_or]
            exact ⟨hne, ihm⟩
          · rw [if_neg hsend]
            obtain ⟨ihm, ihs⟩ := ih st h
            refine ⟨?_, ihs⟩
            simp only [List.mem_cons, not_or]
            exact ⟨hne, ihm⟩

theorem runGuilds_no_success_preserve (d : Bool) (sched : CivilDT)
    (gs : List GuildEnv) (st : StateMap) (key : String)
    (h : ∀ g ∈ gs, key = guildKey g →
      ¬(g.channelFound = true ∧ g.send = SendOutcome.ok)) :
    dictGet (runGuilds d sched gs st).state key = dictGet st key := by
  induction gs generalizing st with
  | nil => rfl
  | cons g rest ih =>
    have hrest : ∀ g2 ∈ rest, key = guildKey g2 →
        ¬(g2.channelFound = true ∧ g2.send = SendOutcome.ok) :=
      fun g2 hg2 => h g2 (List.mem_cons_of_mem g hg2)
    unfold runGuilds
    by_cases h1 : g.channelFound = false
    · simp only [if_pos h1]
      exact ih st hrest
    · simp only [if_neg h1]
      have h1t : g.channelFound = true := by
        revert h1
        cases g.channelFound <;> simp
      by_cases h2 : _already_sent_for_run st (guildKey g) sched = true
      · simp only [if_pos h2]
        exact ih st hrest
      · rw [if_neg h2]
        by_cases hd : d = true
        · rw [if_pos hd]
          exact ih st hrest
        · rw [if_neg hd]
          by_cases hsend : g.send = SendOutcome.ok
          · rw [if_pos hsend]
            by_cases hkey : key = guildKey g
            · exact absurd ⟨h1t, hsend⟩ (h g (List.mem_cons_self g rest) hkey)
            · have hset : dictGet
                  (dictSet st (guildKey g) (JValue.jstr (isoformat sched))) key
                  = dictGet st key :=
                dictGet_dictSet_ne st (guildKey g) key
                  (JValue.jstr (isoformat sched)) hkey
              exact (ih (dictSet st (guildKey g)
                (JValue.jstr (isoformat sched))) hrest).trans hset
          · rw [if_neg hsend]
            exact ih st hrest

theorem runGuilds_state_some (d : Bool) (sched : CivilDT) (gs : List GuildEnv)
    (st : StateMap) (key : String) (v : JValue)
    (h : dictGet (runGuilds d sched gs st).state key = some v) :
    dictGet st key = some v ∨
      (v = JValue.jstr (isoformat sched) ∧ d = false ∧
        ∃ g ∈ gs, g.channelFound = true ∧ g.send = SendOutcome.ok ∧
          key = guildKey g) := by
  induction gs generalizing st with
  | nil => exact Or.inl h
  | cons g rest ih =>
    unfold runGuilds at h
    by_cases h1 : g.channelFound = false
    · rw [if_pos h1] at h
      rcases ih st h with hc | ⟨hv, hdf, g2, hg2, hrest⟩
      · exact Or.inl hc
      · exact Or.inr ⟨hv, hdf, g2, List.mem_cons_of_mem g hg2, hrest⟩
    · rw [if_neg h1] at h
      have h1t : g.channelFound = true := by
        revert h1
        cases g.channelFound <;> simp
      by_cases h2 : _already_sent_for_run st (guildKey g) sched = true
      · rw [if_pos h2] at h
        rcases ih st h with hc | ⟨hv, hdf, g2, hg2, hrest⟩
        · exact Or.inl hc
        · exact Or.inr ⟨hv, hdf, g2, List.mem_cons_of_mem g hg2, hrest⟩
      · rw [if_neg h2] at h
        by_cases hd : d = true
        · rw [if_pos hd] at h
          rcases ih st h with hc | ⟨hv, hdf, g2, hg2, hrest⟩
          · exact Or.inl hc
          · exact Or.inr ⟨hv, hdf, g2, List.mem_cons_of_mem g hg2, hrest⟩
        · rw [if_neg hd] at h
          have hdf : d = false := by
            revert hd
            cases d <;> simp
          by_cases hsend : g.send = SendOutcome.ok
          · rw [if_pos hsend] at h
            simp only at h
            rcases ih (dictSet st (guildKey g) (JValue.jstr (isoformat sched)))
                h with hc | ⟨hv, _, g2, hg2, hrest⟩
            · by_cases hkey : key = guildKey g
              · rw [hkey, dictGet_dictSet_self st (guildKey g)
                  (JValue.jstr (isoformat sched))] at hc
                refine Or.inr ⟨(Option.some.inj hc).symm, hdf,
                  g, List.mem_cons_self g rest, h1t, hsend, hkey⟩
              · rw [dictGet_dictSet_ne st (guildKey g) key
                  (JValue.jstr (isoformat sched)) hkey] at hc
                exact Or.inl hc
            · exact Or.inr ⟨hv, hdf, g2, List.mem_cons_of_mem g hg2, hrest⟩
          · rw [if_neg hsend] at h
            simp only at h
            rcases ih st h with hc | ⟨hv, _, g2, hg2, hrest⟩
            · exact Or.inl hc
            · exact Or.inr ⟨hv, hdf, g2, List.mem_cons_of_mem g hg2, hrest⟩

theorem runGuilds_saves_success (d : Bool) (sched : CivilDT)
    (gs : List GuildEnv) (st : StateMap) :
    ∀ s ∈ (runGuilds d sched gs st).saves, d = false ∧
      ∃ g ∈ gs, g.channelFound = true ∧ g.send = SendOutcome.ok := by
  induction gs generalizing st with
  | nil => intro s hs; exact absurd hs (List.not_mem_nil s)
  | cons g rest ih =>
    intro s hs
    unfold runGuilds at hs
    by_cases h1 : g.channelFound = false
    · rw [if_pos h1] at hs
      obtain ⟨hdf, g2, hg2, hp⟩ := ih st s hs
      exact ⟨hdf, g2, List.mem_cons_of_mem g hg2, hp⟩
    · rw [if_neg h1] at hs
      have h1t : g.channelFound = true := by
        revert h1
        cases g.channelFound <;> simp
      by_cases h2 : _already_sent_for_run st (guildKey g) sched = true
      · rw [if_pos h2] at hs
        obtain ⟨hdf, g2, hg2, hp⟩ := ih st s hs
        exact ⟨hdf, g2, List.mem_cons_of_mem g hg2, hp⟩
      · rw [if_neg h2] at hs
        by_cases hd : d = true
        · rw [if_pos hd] at hs
          obtain ⟨hdf, g2, hg2, hp⟩ := ih st s hs
          exact ⟨hdf, g2, List.mem_cons_of_mem g hg2, hp⟩
        · rw [if_neg hd] at hs
          have hdf : d = false := by
            revert hd
            cases d <;> simp
          by_cases hsend : g.send = SendOutcome.ok
          · rw [if_pos hsend] at hs
            simp only [List.mem_cons] at hs
            rcases hs with hs | hs
            · exact ⟨hdf, g, List.mem_cons_self g rest, h1t, hsend⟩
            · obtain ⟨_, g2, hg2, hp⟩ := ih
                (dictSet st (guildKey g) (JValue.jstr (isoformat sched))) s hs
              exact ⟨hdf, g2, List.mem_cons_of_mem g hg2, hp⟩
          · rw [if_neg hsend] at hs
            simp only at hs
            obtain ⟨_, g2, hg2, hp⟩ := ih st s hs
            exact ⟨hdf, g2, List.mem_cons_of_mem g hg2, hp⟩

/-- Claim C8: with dry-run enabled, `_run_send_window` performs no real
delivery invocation, never mutates the in-memory store, and never persists
anything, for every environment, store and scheduled instant. -/
theorem claim_C8_dry_run_frame (env : WindowEnv) (st : StateMap)
    (sched : CivilDT) (h : env.dryRun = true) :
    _run_send_window env st sched = ⟨st, [], []⟩ := by
  unfold _run_send_window
  cases hcid : env.channelId with
  | none =>
    rw [h]
    exact runGuilds_dry sched env.guilds st
  | some cid =>
    cases hres : env.resolve with
    | raisesError => rfl
    | ok =>
      dsimp only
      by_cases h2 : _already_sent_for_run st
          (_make_target_key (some cid) none) sched = true
      · simp [h2]
      · simp [h2, h]

/-- Witness for C8: dry-run environment with one guild, empty store — no
deliveries, no saves, store untouched. -/
theorem claim_C8_witness :
    _run_send_window ⟨true, none, ResolveResult.ok, SendOutcome.ok,
      [⟨7, true, SendOutcome.ok⟩]⟩ [] ⟨738888, 0⟩ = ⟨[], [], []⟩ := by
  exact claim_C8_dry_run_frame ⟨true, none, ResolveResult.ok, SendOutcome.ok,
    [⟨7, true, SendOutcome.ok⟩]⟩ [] ⟨738888, 0⟩ rfl

/-- Claim C1: if the store already maps a target's key to the ISO string of
`sched`, a `_run_send_window` pass for `sched` performs no delivery invocation
for that target and leaves that key's store entry unchanged; on the
fixed-channel path for that key the pass has no effect at all. -/
theorem claim_C1_idempotent (env : WindowEnv) (st : StateMap) (sched : CivilDT)
    (key : String)
    (hmap : dictGet st key = some (JValue.jstr (isoformat sched))) :
    key ∉ (_run_send_window env st sched).deliveries ∧
    dictGet (_run_send_window env st sched).state key = dictGet st key ∧
    (∀ cid, env.channelId = some cid →
      key = _make_target_key (some cid) none →
      _run_send_window env st sched = ⟨st, [], []⟩) := by
  have h : _already_sent_for_run st key sched = true :=
    (already_sent_for_run_iff st key sched).mpr hmap
  unfold _run_send_window
  cases hcid : env.channelId with
  | none =>
    obtain ⟨hm, hst⟩ := runGuilds_already_sent env.dryRun sched env.guilds st key h
    exact ⟨hm, hst, fun cid hc => Option.noConfusion hc⟩
  | some cid =>
    cases hres : env.resolve with
    | raisesError => exact ⟨List.not_mem_nil key, rfl, fun _ _ _ => rfl⟩
    | ok =>
      dsimp only
      by_cases h2 : _already_sent_for_run st
          (_make_target_key (some cid) none) sched = true
      · rw [if_pos h2]
        exact ⟨List.not_mem_nil key, rfl, fun _ _ _ => rfl⟩
      · rw [if_neg h2]
        have hne : key ≠ _make_target_key (some cid) none :=
          already_ne st sched key _ h (Bool.eq_false_iff.mpr h2)
        by_cases hd : env.dryRun = true
        · rw [if_pos hd]
          exact ⟨List.not_mem_nil key, rfl, fun _ _ _ => rfl⟩
        · rw [if_neg hd]
          by_cases hsend : env.fixedSend = SendOutcome.ok
          · rw [if_pos hsend]
            refine ⟨?_, dictGet_dictSet_ne st _ key _ hne, ?_⟩
            · simp only [List.mem_singleton]
              exact hne
            · intro cid2 hc hk
              rw [Option.some.inj hc] at hne
              exact absurd hk hne
          · rw [if_neg hsend]
            refine ⟨?_, rfl, ?_⟩
            · simp only [List.mem_singleton]
              exact hne
            · intro cid2 hc hk
              rw [Option.some.inj hc] at hne
              exact absurd hk hne

/-- Witness for C1, Scenario B: fixed channel 42, store already holding
`channel:42 -> isoformat(2024-01-03T00:00)` — a second pass for the same
instant delivers nothing and leaves the store unchanged. -/
theorem claim_C1_witness :
    _run_send_window ⟨false, some 42, ResolveResult.ok, SendOutcome.ok, []⟩
      [("channel:42", JValue.jstr (isoformat ⟨738888, 0⟩))] ⟨738888, 0⟩
      = ⟨[("channel:42", JValue.jstr (isoformat ⟨738888, 0⟩))], [], []⟩ := by
  exact (claim_C1_idempotent
    ⟨false, some 42, ResolveResult.ok, SendOutcome.ok, []⟩
    [("channel:42", JValue.jstr (isoformat ⟨738888, 0⟩))] ⟨738888, 0⟩
    "channel:42" (by decide)).2.2 42 rfl (by decide)

/-- Claim C3: a store entry is only ever written with the ISO string of the
scheduled instant and only when its target's delivery confirmed success (never
in dry-run); if no delivery for the key succeeded, the entry is unchanged; and
every snapshot handed to the persistence layer follows a confirmed success. -/
theorem claim_C3_write_only_after_success (env : WindowEnv) (st : StateMap)
    (sched : CivilDT) (key : String) :
    (¬ successFor env key →
      dictGet (_run_send_window env st sched).state key = dictGet st key) ∧
    (∀ v, dictGet (_run_send_window env st sched).state key = some v →
      dictGet st key = some v ∨
        (v = JValue.jstr (isoformat sched) ∧ env.dryRun = false ∧
          successFor env key)) ∧
    (∀ s ∈ (_run_send_window env st sched).saves,
      env.dryRun = false ∧ ∃ k, successFor env k) := by
  unfold _run_send_window successFor
  cases hcid : env.channelId with
  | none =>
    refine ⟨?_, ?_, ?_⟩
    · intro hns
      apply runGuilds_no_success_preserve
      intro g hg hkey hcf
      exact hns ⟨g, hg, hcf.1, hcf.2, hkey⟩
    · intro v hv
      rcases runGuilds_state_some env.dryRun sched env.guilds st key v hv with
        hc | ⟨h1, h2, g, hg, hcf, hok, hkey⟩
      · exact Or.inl hc
      · exact Or.inr ⟨h1, h2, g, hg, hcf, hok, hkey⟩
    · intro s hs
      obtain ⟨hdf, g, hg, hcf, hok⟩ :=
        runGuilds_saves_success env.dryRun sched env.guilds st s hs
      exact ⟨hdf, guildKey g, g, hg, hcf, hok, rfl⟩
  | some cid =>
    cases hres : env.resolve with
    | raisesError =>
      exact ⟨fun _ => rfl, fun v hv => Or.inl hv,
        fun s hs => absurd hs (List.not_mem_nil s)⟩
    | ok =>
      dsimp only
      by_cases h2 : _already_sent_for_run st
          (_make_target_key (some cid) none) sched = true
      · rw [if_pos h2]
        exact ⟨fun _ => rfl, fun v hv => Or.inl hv,
          fun s hs => absurd hs (List.not_mem_nil s)⟩
      · rw [if_neg h2]
        by_cases hd : env.dryRun = true
        · rw [if_pos hd]
          exact ⟨fun _ => rfl, fun v hv => Or.inl hv,
            fun s hs => absurd hs (List.not_mem_nil s)⟩
        · rw [if_neg hd]
          have hdf : env.dryRun = false := by
            revert hd
            cases env.dryRun <;> simp
          by_cases hsend : env.fixedSend = SendOutcome.ok
          · rw [if_pos hsend]
            refine ⟨?_, ?_, ?_⟩
            · intro hns
              by_cases hkey : key = _make_target_key (some cid) none
              · exact absurd ⟨rfl, hsend, hkey⟩ hns
              · exact dictGet_dictSet_ne st _ key _ hkey
            · intro v hv
              by_cases hkey : key = _make_target_key (some cid) none
              · rw [hkey, dictGet_dictSet_self st _ _] at hv
                exact Or.inr ⟨(Option.some.inj hv).symm, hdf, rfl, hsend, hkey⟩
              · rw [dictGet_dictSet_ne st _ key _ hkey] at hv
                exact Or.inl hv
            · intro s hs
              exact ⟨hdf, _make_target_key (some cid) none, rfl, hsend, rfl⟩
          · rw [if_neg hsend]
            exact ⟨fun _ => rfl, fun v hv => Or.inl hv,
              fun s hs => absurd hs (List.not_mem_nil s)⟩

/-- Witness for C3: fixed channel 42, delivery forbidden, empty store — the
entry for `channel:42` stays absent. -/
theorem claim_C3_witness :
    dictGet (_run_send_window
      ⟨false, some 42, ResolveResult.ok, SendOutcome.forbidden, []⟩
      [] ⟨738888, 0⟩).state "channel:42" = none := by
  exact ((claim_C3_write_only_after_success
    ⟨false, some 42, ResolveResult.ok, SendOutcome.forbidden, []⟩
    [] ⟨738888, 0⟩ "channel:42").1
    (fun hsf => SendOutcome.noConfusion hsf.2.1)).trans rfl

theorem runGuilds_cons_eq (d : Bool) (sched : CivilDT) (g : GuildEnv)
    (rest : List GuildEnv) (st : StateMap) :
    runGuilds d sched (g :: rest) st =
      if g.channelFound = false then runGuilds d sched rest st
      else if _already_sent_for_run st (guildKey g) sched then
        runGuilds d sched rest st
      else if d then runGuilds d sched rest st
      else if g.send = SendOutcome.ok then
        ⟨(runGuilds d sched rest
            (dictSet st (guildKey g) (JValue.jstr (isoformat sched)))).state,
          guildKey g :: (runGuilds d sched rest
            (dictSet st (guildKey g) (JValue.jstr (isoformat sched)))).deliveries,
          dictSet st (guildKey g) (JValue.jstr (isoformat sched)) ::
            (runGuilds d sched rest
              (dictSet st (guildKey g) (JValue.jstr (isoformat sched)))).saves⟩
      else
        ⟨(runGuilds d sched rest st).state,
          guildKey g :: (runGuilds d sched rest st).deliveries,
          (runGuilds d sched rest st).saves⟩ := rfl

theorem runGuilds_fail_append (d : Bool) (sched : CivilDT)
    (gs2 : List GuildEnv) (st : StateMap) :
    ∀ gs1, (∀ g ∈ gs1, g.send ≠ SendOutcome.ok) →
    (runGuilds d sched (gs1 ++ gs2) st).state
        = (runGuilds d sched gs2 st).state ∧
    (runGuilds d sched (gs1 ++ gs2) st).saves
        = (runGuilds d sched gs2 st).saves ∧
    (∀ k, k ∈ (runGuilds d sched gs2 st).deliveries →
      k ∈ (runGuilds d sched (gs1 ++ gs2) st).deliveries) := by
  intro gs1
  induction gs1 with
  | nil => exact fun _ => ⟨rfl, rfl, fun k hk => hk⟩
  | cons g rest ih =>
    intro hfail
    have hrest : ∀ g2 ∈ rest, g2.send ≠ SendOutcome.ok :=
      fun g2 hg2 => hfail g2 (List.mem_cons_of_mem g hg2)
    obtain ⟨ihst, ihsv, ihd⟩ := ih hrest
    rw [List.cons_append, runGuilds_cons_eq]
    by_cases h1 : g.channelFound = false
    · rw [if_pos h1]
      exact ⟨ihst, ihsv, ihd⟩
    · rw [if_neg h1]
      by_cases h2 : _already_sent_for_run st (guildKey g) sched = true
      · rw [if_pos h2]
        exact ⟨ihst, ihsv, ihd⟩
      · rw [if_neg h2]
        by_cases hd : d = true
        · rw [if_pos hd]
          exact ⟨ihst, ihsv, ihd⟩
        · rw [if_neg hd]
          have hsend : ¬ g.send = SendOutcome.ok :=
            hfail g (List.mem_cons_self g rest)
          rw [if_neg hsend]
          exact ⟨ihst, ihsv, fun k hk => List.mem_cons_of_mem _ (ihd k hk)⟩

/-- Claim C9: in a guild-mode pass, a prefix of targets whose deliveries all
fail changes nothing for the remaining targets: final state and persisted
snapshots equal those of processing the remaining targets alone, and every
delivery the remaining targets would receive still happens. -/
theorem claim_C9_failure_isolation (env : WindowEnv) (st : StateMap)
    (sched : CivilDT) (gs1 gs2 : List GuildEnv)
    (hmode : env.channelId = none) (hgs : env.guilds = gs1 ++ gs2)
    (hfail : ∀ g ∈ gs1, g.send ≠ SendOutcome.ok) :
    (_run_send_window env st sched).state
        = (runGuilds env.dryRun sched gs2 st).state ∧
    (_run_send_window env st sched).saves
        = (runGuilds env.dryRun sched gs2 st).saves ∧
    (∀ k, k ∈ (runGuilds env.dryRun sched gs2 st).deliveries →
      k ∈ (_run_send_window env st sched).deliveries) := by
  have hw : _run_send_window env st sched
      = runGuilds env.dryRun sched (gs1 ++ gs2) st := by
    unfold _run_send_window
    rw [hmode, hgs]
  rw [hw]
  exact runGuilds_fail_append env.dryRun sched gs2 st gs1 hfail

/-- Witness for C9: one forbidden guild followed by one successful guild — the
final state equals that of processing the successful guild alone. -/
theorem claim_C9_witness :
    (_run_send_window ⟨false, none, ResolveResult.ok, SendOutcome.ok,
        [⟨1, true, SendOutcome.forbidden⟩, ⟨2, true, SendOutcome.ok⟩]⟩
      [] ⟨738888, 0⟩).state
      = (runGuilds false ⟨738888, 0⟩ [⟨2, true, SendOutcome.ok⟩] []).state := by
  exact (claim_C9_failure_isolation
    ⟨false, none, ResolveResult.ok, SendOutcome.ok,
      [⟨1, true, SendOutcome.forbidden⟩, ⟨2, true, SendOutcome.ok⟩]⟩
    [] ⟨738888, 0⟩ [⟨1, true, SendOutcome.forbidden⟩]
    [⟨2, true, SendOutcome.ok⟩] rfl rfl (by decide)).1

end TrashBot
